import Mathlib

/-!
Shallow embedding of `sync_diff_inspector/splitter/bucket.go` (package `splitter`):
the bucket-driven range splitter of tidb-tools' sync_diff_inspector.

Conventions of the embedding:
* Go `int`/`int64`/`uint` values are modelled as unbounded `Int`/`Nat`; no claim here
  concerns integer overflow, and Go division (truncation toward zero) is written
  `Int.tdiv` where the source divides.
* The encoded bucket bounds have an abstract type `κ`; the decoded per-column value
  lists have an abstract type `β`, treated as one whole key tuple.  The source updates
  every column of a `chunk.Range` with the same presence flags, so one `Option β` per
  side is an equivalent representation of the per-column bounds.
* Database calls (`dbutil.AnalyzeValuesFromBuckets`, `dbutil.GetRowCount`,
  `splitRangeByRandom`) are outside `src/`; they are environment parameters that may
  fail, matching their Go signatures at the granularity the splitter observes.
* A Go runtime panic (slice index out of range, closing a closed channel) is the
  distinguished outcome `panicked` — no value is delivered on any channel there.
-/

namespace Splitter

/-- `dbutil.Bucket` (package `pkg/dbutil`, consumed by the source): `Count` is the
cumulative row count (rows with key ≤ `UpperBound`, counted from the start of the
table), the bounds are encoded keys. -/
structure Bucket (κ : Type) where
  Count : Int
  LowerBound : κ
  UpperBound : κ
deriving DecidableEq

/-- `chunk.Range` of the source, with bounds modelled as whole key tuples.
Modelled from the spec (§3): per column an optional lower and upper value, absence
meaning unbounded on that side. -/
structure ChunkRange (β : Type) where
  lower : Option β
  upper : Option β
deriving DecidableEq

/-- `chunk.NewChunkRange()`: a fresh range with both sides absent. -/
def NewChunkRange {β : Type} : ChunkRange β := ⟨none, none⟩

/-- `chunk.Range.Update` (modelled from the spec §3): replace the lower/upper bound
when the corresponding flag is set, keep it otherwise.  (The Go method takes the
column name and per-column values; at the key-tuple granularity those collapse to
the two flags.) -/
def ChunkRange.Update {β : Type} (r : ChunkRange β) (lowerV upperV : β)
    (updateLower updateUpper : Bool) : ChunkRange β :=
  ⟨if updateLower then some lowerV else r.lower,
   if updateUpper then some upperV else r.upper⟩

/-- A finalized chunk: a range plus the metadata `chunk.InitChunks` stamps on it. -/
structure Chunk (β : Type) where
  range : ChunkRange β
  chunkID : Int
  bucketID : Nat
deriving DecidableEq

/-- `chunk.InitChunks` (modelled from the spec §4.2/§5: "Assign a contiguous block of
chunk IDs to the returned sub-ranges, tag each with the current bucket ID"): assign
consecutive chunk IDs starting at `chunkID`, tag each chunk with `bucketID`, and
return the next free ID. -/
def InitChunks {β : Type} (rs : List (ChunkRange β)) (chunkID : Int) (bucketID : Nat) :
    List (Chunk β) × Int :=
  (rs.enum.map (fun p => ⟨p.2, chunkID + (p.1 : Int), bucketID⟩), chunkID + rs.length)

/-- The external database operations `produceChunks` performs, all outside `src/`:
`decode` is `dbutil.AnalyzeValuesFromBuckets`, `rowCount` is `dbutil.GetRowCount`
applied to a range's WHERE rendering, `split` is `splitRangeByRandom` applied to a
merged range and a requested sub-chunk count.  Each may fail like the Go call. -/
structure Env (κ β : Type) where
  decode : κ → Except String β
  rowCount : ChunkRange β → Except String Int
  split : ChunkRange β → Int → Except String (List (ChunkRange β))

/-- How the production goroutine ends: `done` = the `nil` sentinel was sent on the
chunks channel; `errSent e` = `e` was sent on the error channel and the goroutine
returned; `panicked` = a Go runtime panic (no message delivered). -/
inductive Outcome where
  | done
  | errSent (e : String)
  | panicked
deriving DecidableEq

/-- One batch pushed onto the chunks channel.  A `split` batch records, as
instrumentation, the merged range, the row delta `count` and the `chunkCnt` that were
handed to `splitRangeByRandom`, together with the finalized chunks sent.  A `last`
batch is the single trailing chunk of bucket.go lines 246–253. -/
inductive Emit (β : Type) where
  | split (merged : ChunkRange β) (delta chunkCnt : Int) (chunks : List (Chunk β))
  | last (c : Chunk β)
deriving DecidableEq

/-- The chunks a batch delivers. -/
def Emit.chunksOf {β : Type} : Emit β → List (Chunk β)
  | .split _ _ _ chs => chs
  | .last c => [c]

/-- Whether a batch is the trailing single-chunk batch. -/
def Emit.isLast {β : Type} : Emit β → Bool
  | .split _ _ _ _ => false
  | .last _ => true

/-- All chunks of a production trace, in delivery order. -/
def allChunks {β : Type} (tr : List (Emit β)) : List (Chunk β) :=
  (tr.map Emit.chunksOf).flatten

/-- The for-loop of `produceChunks` (bucket.go lines 200–253) together with the
trailing merge and the closing sentinel.  The Go loop walks `buckets[i]` for `i` from
`beginBucket` to `len(buckets)-1`; here it recurses over the remaining bucket suffix
while carrying the loop index `i`, and `totalBuckets` is `len(buckets)` (the bucket
ID stamped on the trailing chunk).  State: `latestCount` is the cumulative count at
the last emission, `lows` the pending lower-bound values (`lowerValues`, `none` for
the Go empty slice), `cid` the next chunk ID. -/
def produceLoop {κ β : Type} [Inhabited β] (env : Env κ β)
    (chunkSize halfChunkSize : Int) (totalBuckets : Nat) :
    List (Bucket κ) → Nat → Int → Option β → Int → List (Emit β) × Outcome
  | [], _, _, none, _ => ([], .done)
  | [], _, _, some lv, cid =>
      -- lines 246–252: merge the rest keys into one chunk, bucket ID = len(buckets)
      ([Emit.last ⟨(NewChunkRange).Update lv default true false, cid, totalBuckets⟩],
       .done)
  | bk :: rest, i, latestCount, lows, cid =>
      let count := bk.Count - latestCount
      if count < chunkSize then
        -- line 204: merge more buckets into one chunk
        produceLoop env chunkSize halfChunkSize totalBuckets rest (i + 1) latestCount
          lows cid
      else
        match env.decode bk.UpperBound with
        | .error e => ([], .errSent e)
        | .ok upperValues =>
          -- lines 215–224: lower side present iff lowerValues is nonempty
          let merged :=
            match lows with
            | some lv => (NewChunkRange).Update lv upperValues true true
            | none => (NewChunkRange).Update default upperValues false true
          -- line 231
          let chunkCnt := (count + halfChunkSize).tdiv chunkSize
          match env.split merged chunkCnt with
          | .error e => ([], .errSent e)
          | .ok rs =>
            let ini := InitChunks rs cid i
            let rec0 := produceLoop env chunkSize halfChunkSize totalBuckets rest
              (i + 1) bk.Count (some upperValues) ini.2
            (Emit.split merged count chunkCnt ini.1 :: rec0.1, rec0.2)

/-- `RangeInfo` as `produceChunks` consumes it: the checkpoint's index ID, the bucket
ID of the in-progress chunk, and the tuple of the saved chunk's per-column `Upper`
values (`c.Bounds`). -/
structure RangeInfo (β : Type) where
  IndexID : Int
  BucketID : Nat
  boundsUpper : β
deriving DecidableEq

/-- `produceChunks` (bucket.go lines 148–257).  Without a checkpoint it runs the loop
from bucket 0 with empty state.  With a checkpoint it rebuilds the in-progress range
from the saved bounds (lower) and the checkpoint bucket's decoded upper bound
(upper), counts its live rows, emits it as a first batch when the count is positive,
and resumes the loop at `BucketID + 1`.  Source-accurate details:
* line 169 indexes `buckets[c.BucketID]` without a bounds check (panic if out of
  range), and its decode error is assigned to a shadowed `err` that is never checked
  before being overwritten at line 176 — on decode failure the Go code goes on to
  index the `nil` result slice at line 171 and panics;
* line 194 indexes `buckets[beginBucket]` without a bounds check. -/
def produceChunks {κ β : Type} [Inhabited β] (env : Env κ β)
    (buckets : List (Bucket κ)) (chunkSize : Int)
    (startRange : Option (RangeInfo β)) : List (Emit β) × Outcome :=
  let halfChunkSize := chunkSize.tdiv 2
  match startRange with
  | none => produceLoop env chunkSize halfChunkSize buckets.length buckets 0 0 none 0
  | some r =>
    match buckets[r.BucketID]? with
    | none => ([], .panicked)
    | some bk =>
      -- lines 162–166: the saved bounds' Upper values become the new lower bound
      let cr1 := (NewChunkRange).Update r.boundsUpper default true false
      match env.decode bk.UpperBound with
      | .error _ => ([], .panicked)
      | .ok nextUpperValues =>
        -- lines 170–172
        let cr2 := cr1.Update default nextUpperValues false true
        match env.rowCount cr2 with
        | .error e => ([], .errSent e)
        | .ok count =>
          let step :=
            if 0 < count then
              let chunkCnt := (count + halfChunkSize).tdiv chunkSize
              match env.split cr2 chunkCnt with
              | .error e => Except.error e
              | .ok rs =>
                let ini := InitChunks rs 0 r.BucketID
                Except.ok ([Emit.split cr2 count chunkCnt ini.1], ini.2)
            else Except.ok ([], 0)
          match step with
          | .error e => ([], .errSent e)
          | .ok (firstEmits, cid) =>
            -- lines 192–198
            let latestCount := bk.Count
            let beginBucket := r.BucketID + 1
            match buckets[beginBucket]? with
            | none => (firstEmits, .panicked)
            | some bk2 =>
              match env.decode bk2.LowerBound with
              | .error e => (firstEmits, .errSent e)
              | .ok lowerValues =>
                let rec0 := produceLoop env chunkSize halfChunkSize buckets.length
                  (buckets.drop beginBucket) beginBucket latestCount
                  (some lowerValues) cid
                (firstEmits ++ rec0.1, rec0.2)

/-- The consumer-visible state of a `BucketIterator`: the current batch `s.chunks`
(`none` models the Go `nil` slice), the cursor `s.nextChunk`, and the two channels —
`pending` holds the values queued on `chunksCh` (`none` being the `nil` sentinel),
`closed` whether `chunksCh` has been closed, `errPending` the single-slot `errCh`. -/
structure IterState (β : Type) where
  chunks : Option (List (Chunk β))
  nextChunk : Nat
  pending : List (Option (List (Chunk β)))
  closed : Bool
  errPending : Option String
deriving DecidableEq

/-- What one call of `Next` does: deliver a chunk, signal clean completion
(`nil, nil`), surface an error, panic, or block forever. -/
inductive NextResult (β : Type) where
  | chunk (c : Chunk β)
  | finished
  | err (e : String)
  | panicked
  | blocked
deriving DecidableEq

/-- `BucketIterator.Next` (bucket.go lines 71–90).  Go's `select` picks randomly when
several cases are ready; this model prefers the error channel, and the theorems below
only rely on states where at most one case is ready.  Receiving from a closed channel
yields the zero value (`nil`) immediately, and `close` of an already-closed channel
panics — both per the Go memory model. -/
def next {β : Type} (s : IterState β) : NextResult β × IterState β :=
  if (s.chunks.getD []).length ≤ s.nextChunk then
    match s.errPending with
    | some e => (.err e, { s with errPending := none })
    | none =>
      match s.pending with
      | none :: rest =>
        -- received the nil sentinel: close the channel and return (nil, nil)
        if s.closed then (.panicked, { s with chunks := none, pending := rest })
        else (.finished, { s with chunks := none, pending := rest, closed := true })
      | some batch :: rest =>
        -- received a batch; the fall-through then reads batch[0] (panic if empty)
        match batch with
        | [] => (.panicked, { s with chunks := some [], nextChunk := 0, pending := rest })
        | c :: _ =>
          (.chunk c, { s with chunks := some batch, nextChunk := 1, pending := rest })
      | [] =>
        if s.closed then
          -- a closed empty channel is always ready and yields nil; the body then
          -- closes the already-closed channel: panic
          (.panicked, { s with chunks := none })
        else (.blocked, s)
  else
    match (s.chunks.getD [])[s.nextChunk]? with
    | some c => (.chunk c, { s with nextChunk := s.nextChunk + 1 })
    | none => (.panicked, s)

/-- The channel contents a full run of `produceChunks` leaves behind: one batch per
emission plus the `nil` sentinel on clean completion on `chunksCh`, and the error, if
any, on `errCh`. -/
def channelOf {β : Type} (out : List (Emit β) × Outcome) :
    List (Option (List (Chunk β))) × Option String :=
  (out.1.map (fun e => some e.chunksOf) ++ (if out.2 = Outcome.done then [none] else []),
   match out.2 with | .errSent e => some e | _ => none)

/-- The `model.IndexInfo` fields the source reads: stable ID and name. -/
structure IndexInfo where
  ID : Int
  Name : String
deriving DecidableEq

/-- What a successful `init` stores on the iterator: chosen index ID, its bucket
list, its column list, and the (possibly derived) chunk size. -/
structure InitResult (κ : Type) where
  indexID : Int
  buckets : List (Bucket κ)
  indexColumns : List String
  chunkSize : Int
deriving DecidableEq

/-- The two error shapes `init` produces: `errors.NotFoundf` and a traced query
error from `GetBucketsInfo`. -/
inductive InitError where
  | notFound (msg : String)
  | query (msg : String)
deriving DecidableEq

/-- The index-selection loop of `init` (bucket.go lines 100–123).  `bucketsMap` is
the `GetBucketsInfo` result, `columnsOf` stands for `utils.GetColumnsFromIndex`
(outside `src/`, column names suffice), `startIndexID` is the checkpoint's index ID
when a checkpoint is supplied.  Returns the adopted index with its buckets and
columns, `none` when the loop falls through without adopting, or the NotFound error
of line 110. -/
def selectIndex {κ : Type} (bucketsMap : String → Option (List (Bucket κ)))
    (columnsOf : IndexInfo → List String) (startIndexID : Option Int) :
    List (Option IndexInfo) →
      Except InitError (Option (IndexInfo × List (Bucket κ) × List String))
  | [] => .ok none
  | none :: rest => selectIndex bucketsMap columnsOf startIndexID rest
  | some idx :: rest =>
    if (match startIndexID with | some iid => decide (iid ≠ idx.ID) | none => false) then
      selectIndex bucketsMap columnsOf startIndexID rest
    else
      match bucketsMap idx.Name with
      | none => .error (.notFound ("index " ++ idx.Name ++ " in buckets info"))
      | some bks =>
        if columnsOf idx = [] then selectIndex bucketsMap columnsOf startIndexID rest
        else .ok (some (idx, bks, columnsOf idx))

/-- `init` (bucket.go lines 92–143).  `getBuckets` is the `GetBucketsInfo` call,
`indices` the `FindAllIndex` result (possibly containing nil entries),
`splitThreshold` the package constant `SplitThreshold` (outside `src/`, passed as a
parameter).  When the requested `chunkSize` is ≤ 0 the size is derived at lines
130–139: `cnt` accumulates every bucket's (cumulative) `Count`, is divided by 10000,
and is replaced by `2 * SplitThreshold` when the quotient is below
`SplitThreshold`. -/
def init {κ : Type} (getBuckets : Except String (String → Option (List (Bucket κ))))
    (columnsOf : IndexInfo → List String) (indices : List (Option IndexInfo))
    (startIndexID : Option Int) (chunkSize splitThreshold : Int) :
    Except InitError (InitResult κ) :=
  match getBuckets with
  | .error e => .error (.query e)
  | .ok bucketsMap =>
    match selectIndex bucketsMap columnsOf startIndexID indices with
    | .error e => .error e
    | .ok none => .error (.notFound "no index to split buckets")
    | .ok (some (idx, bks, cols)) =>
      let cs :=
        if chunkSize ≤ 0 then
          let cnt := (bks.map Bucket.Count).sum
          let c0 := cnt.tdiv 10000
          if c0 < splitThreshold then 2 * splitThreshold else c0
        else chunkSize
      .ok ⟨idx.ID, bks, cols, cs⟩

/-- Modelled from the spec (§3, §4.2): the set of index keys a `ChunkRange` denotes —
lower-exclusive, upper-inclusive, an absent side unbounded (half-open per column,
chained ranges sharing an endpoint). -/
def ChunkRange.keySet {α : Type} [LinearOrder α] (r : ChunkRange α) : Set α :=
  {k | (∀ l, r.lower = some l → l < k) ∧ (∀ u, r.upper = some u → k ≤ u)}

/-- The union of the key sets of a list of ranges. -/
def rangesKeys {α : Type} [LinearOrder α] (rs : List (ChunkRange α)) : Set α :=
  {k | ∃ q ∈ rs, k ∈ q.keySet}

/-- The union of the key sets of a list of finalized chunks. -/
def chunksKeys {α : Type} [LinearOrder α] (l : List (Chunk α)) : Set α :=
  {k | ∃ ch ∈ l, k ∈ ch.range.keySet}

/-- Every key of `A` lies strictly below every key of `B`. -/
def Below {α : Type} [LinearOrder α] (A B : Set α) : Prop :=
  ∀ x ∈ A, ∀ y ∈ B, x < y

/-- `rs` tiles `r` in ascending order: the key sets union to `r`'s and each earlier
range lies strictly below each later one (hence no overlaps). -/
def OrderedTiling {α : Type} [LinearOrder α] (rs : List (ChunkRange α))
    (r : ChunkRange α) : Prop :=
  rangesKeys rs = r.keySet ∧ rs.Pairwise (fun a b => Below a.keySet b.keySet)

/-- The keys above an optional lower bound: `keySet ⟨lows, none⟩`. -/
def lowSet {α : Type} [LinearOrder α] (lows : Option α) : Set α :=
  {k | ∀ l, lows = some l → l < k}

/-- The pending lower-bound values (`lowerValues`) after a trace: the merged range's
upper bound of the last loop emission, or the seed when the trace has no loop
emission. -/
def pendingLow {β : Type} (seed : Option β) : List (Emit β) → Option β
  | [] => seed
  | Emit.split m _ _ _ :: tl => pendingLow m.upper tl
  | Emit.last _ :: tl => pendingLow seed tl

/-- A trace together with its trailing batch, if any: when the pending lower bound
after `tr₁` (seeded with `seed`) exists, exactly one trailing single-chunk batch —
bounded below by it, unbounded above, chunk ID `cid₁`, bucket ID `t` — follows
`tr₁`; otherwise nothing does.  Used to state what a clean loop run produces. -/
def withTrailing {β : Type} (seed : Option β) (tr₁ : List (Emit β)) (cid₁ : Int)
    (t : Nat) : List (Emit β) × Outcome :=
  match pendingLow seed tr₁ with
  | none => (tr₁, Outcome.done)
  | some lv => (tr₁ ++ [Emit.last ⟨⟨some lv, none⟩, cid₁, t⟩], Outcome.done)

/-- An index entry the selection loop of `init` skips (continues past): a nil entry,
a checkpoint index-ID mismatch, or a present bucket list with an empty column
list. -/
def SkipsEntry {κ : Type} (bucketsMap : String → Option (List (Bucket κ)))
    (columnsOf : IndexInfo → List String) (startIndexID : Option Int)
    (e : Option IndexInfo) : Prop :=
  e = none ∨
    ∃ idx, e = some idx ∧
      ((∃ iid, startIndexID = some iid ∧ iid ≠ idx.ID) ∨
        ((bucketsMap idx.Name).isSome ∧ columnsOf idx = []))

/-- The chunk size a (possibly failed) `init` stored. -/
def chunkSizeOf {κ : Type} : Except InitError (InitResult κ) → Option Int
  | .ok r => some r.chunkSize
  | .error _ => none

/-- A concrete environment over integer keys: decoding is the identity and the
Sub-Range Splitter returns `max(n, 1)` copies of its input range (`splitRangeByRandom`
passes the input range through when the requested count is ≤ 1). -/
def envInt : Env Int Int where
  decode := fun x => .ok x
  rowCount := fun _ => .ok 0
  split := fun r n => .ok (List.replicate (if n ≤ 1 then 1 else n.toNat) r)

/-- A concrete environment over integer keys whose Sub-Range Splitter is the
pass-through `[r]`: a correct ordered tiling of every input range. -/
def envId : Env Int Int where
  decode := fun x => .ok x
  rowCount := fun _ => .ok 0
  split := fun r _ => .ok [r]

/-- A concrete environment whose bound decoding always fails. -/
def envBad : Env Int Int where
  decode := fun _ => .error "malformed bound"
  rowCount := fun _ => .ok 0
  split := fun r _ => .ok [r]

/-- The spec's concrete scenario (§8): three buckets with cumulative counts
`[100, 250, 400]`; upper bounds 10, 20, 30 as integer keys. -/
def buckets3 : List (Bucket Int) := [⟨100, 0, 10⟩, ⟨250, 10, 20⟩, ⟨400, 20, 30⟩]

/-- One bucket whose cumulative count 1 stays below every chunk size ≥ 2. -/
def bucketsSmall : List (Bucket Int) := [⟨1, 0, 10⟩]

/-- Buckets with cumulative counts 10 000 000 and 14 000 000. -/
def bucketsBig : List (Bucket Int) := [⟨10000000, 0, 10⟩, ⟨14000000, 10, 20⟩]

/-- A buckets-info map holding `bucketsBig` under the index name `idx`. -/
def bucketsMapBig : String → Option (List (Bucket Int)) := fun s =>
  if s = "idx" then some bucketsBig else none

/-- Like `envInt` but with a live row count of 120, for exercising the
checkpoint-resume first batch. -/
def envRC : Env Int Int where
  decode := fun x => .ok x
  rowCount := fun _ => .ok 120
  split := fun r n => .ok (List.replicate (if n ≤ 1 then 1 else n.toNat) r)

/-- One bucket of cumulative count 5 and upper bound 7. -/
def bucketsW : List (Bucket Int) := [⟨5, 0, 7⟩]

/-! ## Theorems -/

/-- C2 (amended): for every table whose requested chunk size is ≤ 0, `init` derives
the chunk size as `s = (Σ over all adopted buckets of Count) / 10000` (Go integer
division; `Count` is each bucket's cumulative row count, so the sum is not the
table's total row count), replaced by `2 * SplitThreshold` when `s < SplitThreshold`
— not `max(totalRows/10000, 2*SplitThreshold)` with `totalRows` the last bucket's
cumulative count. -/
theorem C2_derived_chunk_size {κ : Type}
    (m : String → Option (List (Bucket κ))) (columnsOf : IndexInfo → List String)
    (indices : List (Option IndexInfo)) (startIndexID : Option Int)
    (chunkSize splitThreshold : Int) (hcs : chunkSize ≤ 0) (res : InitResult κ)
    (h : init (Except.ok m) columnsOf indices startIndexID chunkSize splitThreshold =
      Except.ok res) :
    res.chunkSize =
      (if ((res.buckets.map Bucket.Count).sum).tdiv 10000 < splitThreshold
       then 2 * splitThreshold
       else ((res.buckets.map Bucket.Count).sum).tdiv 10000) := by
  unfold init at h
  dsimp only at h
  cases hsel : selectIndex m columnsOf startIndexID indices with
  | error e => rw [hsel] at h; simp at h
  | ok o =>
    cases o with
    | none => rw [hsel] at h; simp at h
    | some a =>
      obtain ⟨idx, bks, cols⟩ := a
      rw [hsel] at h
      simp only [Except.ok.injEq] at h
      rw [← h]
      simp [hcs]

/-- Witness for C2: the amended derivation at buckets with cumulative counts
10 000 000 and 14 000 000, SplitThreshold 1000 and requested size 0 (derived size
2400). -/
theorem C2_derived_chunk_size_witness :
    (⟨1, bucketsBig, ["a"], 2400⟩ : InitResult Int).chunkSize =
      (if ((bucketsBig.map Bucket.Count).sum).tdiv 10000 < 1000
       then 2 * 1000
       else ((bucketsBig.map Bucket.Count).sum).tdiv 10000) :=
  C2_derived_chunk_size bucketsMapBig (fun _ => ["a"]) [some ⟨1, "idx"⟩] none 0 1000
    (by decide) ⟨1, bucketsBig, ["a"], 2400⟩ rfl

/-- C2 is false as stated: with buckets whose cumulative counts are 10 000 000 and
14 000 000 and SplitThreshold 1000, `init` with requested size 0 derives
(10000000+14000000)/10000 = 2400 (it sums every bucket's cumulative count and keeps
any quotient ≥ SplitThreshold), while the claimed formula gives
max(14000000/10000, 2·1000) = max(1400, 2000) = 2000. -/
theorem C2_counterexample :
    chunkSizeOf (init (Except.ok bucketsMapBig) (fun _ => ["a"])
        [some ⟨1, "idx"⟩] none 0 1000) = some 2400 ∧
    ((2400 : Int) ≠ max ((14000000 : Int).tdiv 10000) (2 * 1000)) := by decide

/-- C4 is false as stated: on the spec's own scenario (cumulative counts
`[100, 250, 400]`, chunk size 100, no checkpoint, splitter returning exactly the
requested number of sub-ranges) `produceChunks` emits 6 chunks in total, not 5: the
five loop sub-chunks plus the trailing unbounded-above chunk of bucket.go lines
246–253, which is always emitted once any loop batch was. -/
theorem C4_counterexample :
    (allChunks (produceChunks envInt buckets3 100 none).1).length = 6 ∧
    ¬ (allChunks (produceChunks envInt buckets3 100 none).1).length = 5 := by decide

/-- C4 (amended): on the spec's scenario `produceChunks` emits four batches of
1, 2, 2 and 1 chunks (bucket 0: delta 100 → 1 sub-chunk; bucket 1: delta 150 → 2;
bucket 2: delta 150 → 2; then the trailing unbounded chunk), 6 chunks in total, with
chunk IDs 0–5 and bucket IDs 0,1,1,2,2,3 respectively, and production completes
cleanly. -/
theorem C4_scenario :
    ((produceChunks envInt buckets3 100 none).1.map (fun e => e.chunksOf.length) =
      [1, 2, 2, 1]) ∧
    ((allChunks (produceChunks envInt buckets3 100 none).1).map
        (fun ch => (ch.chunkID, ch.bucketID)) =
      [(0, 0), (1, 1), (2, 1), (3, 2), (4, 2), (5, 3)]) ∧
    (produceChunks envInt buckets3 100 none).2 = Outcome.done := by decide

/-- C5 is a code bug: after a clean run of the producer the chunks channel holds
exactly the `nil` sentinel; the first `Next` consumes it, closes the channel and
returns `(nil, nil)`, but the second `Next` receives `nil` again from the
now-closed channel and executes `close` on an already-closed channel — a Go runtime
panic, not the claimed `(nil, nil)`. -/
theorem C5_second_next_panics :
    produceChunks envInt bucketsSmall 5 none = ([], Outcome.done) ∧
    channelOf (produceChunks envInt bucketsSmall 5 none) = ([none], none) ∧
    (next (⟨none, 0, [none], false, none⟩ : IterState Int)).1 = NextResult.finished ∧
    (next ((next (⟨none, 0, [none], false, none⟩ : IterState Int)).2)).1 =
      NextResult.panicked := by decide

/-- C7 is a code bug: the decode error of the checkpoint bucket's upper bound
(bucket.go line 169) is assigned to a shadowed `err` that is never checked before
the `GetRowCount` call overwrites it, so the goroutine goes on to index the nil
decoded-values slice and panics — nothing is delivered on the error channel.  The
same decode failure in the normal loop (line 209) is delivered on the error channel
as the claim says. -/
theorem C7_checkpoint_decode_error_dropped :
    produceChunks envBad buckets3 100 (some ⟨1, 0, 5⟩) = ([], Outcome.panicked) ∧
    ¬ (produceChunks envBad buckets3 100 (some ⟨1, 0, 5⟩)).2 =
        Outcome.errSent "malformed bound" ∧
    (produceChunks envBad buckets3 100 none).2 = Outcome.errSent "malformed bound" := by
  decide

/-- The selection loop ignores any prefix of entries it skips: nil entries,
checkpoint mismatches, and present-buckets-but-empty-columns entries. -/
theorem selectIndex_skips {κ : Type} (m : String → Option (List (Bucket κ)))
    (columnsOf : IndexInfo → List String) (startIndexID : Option Int)
    (pre l : List (Option IndexInfo))
    (hpre : ∀ e ∈ pre, SkipsEntry m columnsOf startIndexID e) :
    selectIndex m columnsOf startIndexID (pre ++ l) =
      selectIndex m columnsOf startIndexID l := by
  induction pre with
  | nil => rfl
  | cons e pre ih =>
    have he := hpre e (by simp)
    have hrest : ∀ x ∈ pre, SkipsEntry m columnsOf startIndexID x :=
      fun x hx => hpre x (by simp [hx])
    rcases he with rfl | ⟨idx, rfl, hcase⟩
    · simpa [selectIndex] using ih hrest
    · rcases hcase with ⟨iid, hs, hne⟩ | ⟨hbk, hcols⟩
      · subst hs
        simpa [selectIndex, hne] using ih hrest
      · show selectIndex m columnsOf startIndexID (some idx :: (pre ++ l)) = _
        simp only [selectIndex]
        split
        · exact ih hrest
        · rcases Option.isSome_iff_exists.mp hbk with ⟨bks, hbks⟩
          rw [hbks]
          simpa [hcols] using ih hrest

/-- C6: during construction the candidate indexes are scanned in enumeration order
and the first eligible one wins.  With any prefix of skipped entries (nil entries,
checkpoint index-ID mismatches, empty column lists) before a candidate passing the
checkpoint filter: if the candidate has bucket statistics and a nonempty column
list it is adopted with them and enumeration stops regardless of later entries; if
its bucket statistics are absent, selection fails with the NotFound error of
bucket.go line 110 rather than skipping it; and when every entry is skipped, `init`
fails with the NotFound error of line 126 (so the Iterator is never constructed:
`NewBucketIteratorWithCheckpoint` returns the `init` error before launching the
producer). -/
theorem C6_first_eligible_index {κ : Type} (m : String → Option (List (Bucket κ)))
    (columnsOf : IndexInfo → List String) (startIndexID : Option Int)
    (pre rest : List (Option IndexInfo)) (idx : IndexInfo)
    (hpre : ∀ e ∈ pre, SkipsEntry m columnsOf startIndexID e)
    (hpass : ∀ iid, startIndexID = some iid → iid = idx.ID) :
    (∀ bks, m idx.Name = some bks → columnsOf idx ≠ [] →
      selectIndex m columnsOf startIndexID (pre ++ some idx :: rest) =
        Except.ok (some (idx, bks, columnsOf idx))) ∧
    (m idx.Name = none →
      selectIndex m columnsOf startIndexID (pre ++ some idx :: rest) =
        Except.error (InitError.notFound ("index " ++ idx.Name ++ " in buckets info"))) ∧
    (∀ l, (∀ e ∈ l, SkipsEntry m columnsOf startIndexID e) →
      ∀ cs st, init (Except.ok m) columnsOf l startIndexID cs st =
        Except.error (InitError.notFound "no index to split buckets")) := by
  have hstep : selectIndex m columnsOf startIndexID (some idx :: rest) =
      (match m idx.Name with
       | none =>
         Except.error (InitError.notFound ("index " ++ idx.Name ++ " in buckets info"))
       | some bks =>
         if columnsOf idx = [] then selectIndex m columnsOf startIndexID rest
         else Except.ok (some (idx, bks, columnsOf idx))) := by
    cases hsi : startIndexID with
    | none => simp [selectIndex]
    | some iid =>
      have hid := hpass iid hsi
      subst hsi
      subst hid
      simp [selectIndex]
  refine ⟨?_, ?_, ?_⟩
  · intro bks hbks hcols
    rw [selectIndex_skips m columnsOf startIndexID pre _ hpre, hstep, hbks]
    simp [hcols]
  · intro hnone
    rw [selectIndex_skips m columnsOf startIndexID pre _ hpre, hstep, hnone]
  · intro l hl cs st
    have hsel : selectIndex m columnsOf startIndexID l = Except.ok none := by
      have := selectIndex_skips m columnsOf startIndexID l [] hl
      simpa using this
    unfold init
    dsimp only
    rw [hsel]

/-- Witness for C6 at a concrete instance: checkpoint index ID 1, skipped prefix
`[nil, index 2 (mismatch), index 3 (mismatch)]`, adopted index 1 with `bucketsBig`
and column list `["a"]`; and a fully-skipped list failing `init` with NotFound. -/
theorem C6_first_eligible_index_witness :
    selectIndex bucketsMapBig (fun _ => ["a"]) (some 1)
        ([none, some ⟨2, "other"⟩, some ⟨3, "third"⟩] ++ some ⟨1, "idx"⟩ :: [some ⟨9, "x"⟩]) =
      Except.ok (some (⟨1, "idx"⟩, bucketsBig, ["a"])) ∧
    init (Except.ok bucketsMapBig) (fun _ => ["a"])
        [none, some ⟨2, "other"⟩, some ⟨3, "third"⟩] (some 1) 0 1000 =
      Except.error (InitError.notFound "no index to split buckets") := by
  have hpre : ∀ e ∈ ([none, some ⟨2, "other"⟩, some ⟨3, "third"⟩] :
      List (Option IndexInfo)),
      SkipsEntry bucketsMapBig (fun _ => ["a"]) (some 1) e := by
    intro e he
    simp only [List.mem_cons, List.not_mem_nil, or_false] at he
    rcases he with rfl | rfl | rfl
    · exact Or.inl rfl
    · exact Or.inr ⟨⟨2, "other"⟩, rfl, Or.inl ⟨1, rfl, by decide⟩⟩
    · exact Or.inr ⟨⟨3, "third"⟩, rfl, Or.inl ⟨1, rfl, by decide⟩⟩
  have h := C6_first_eligible_index bucketsMapBig (fun _ => ["a"]) (some 1)
    [none, some ⟨2, "other"⟩, some ⟨3, "third"⟩] [some ⟨9, "x"⟩] ⟨1, "idx"⟩ hpre
    (by intro iid h; cases h; rfl)
  exact ⟨h.1 bucketsBig rfl (by decide), h.2.2 _ hpre 0 1000⟩

/-- C8: with a checkpoint, production rebuilds the in-progress range from the
checkpoint's saved column bounds (lower side) and the checkpoint bucket's decoded
upper bound (upper side), counts its live rows, emits that range as the first batch
tagged with the checkpoint's bucket ID (chunk IDs from 0, sub-chunk count by the
half-up rule) exactly when the count is positive, then sets the running cumulative
baseline to the checkpoint bucket's `Count`, seeds the pending lower bound from
bucket `BucketID + 1`'s decoded lower bound, and resumes the normal loop at bucket
`BucketID + 1`. -/
theorem C8_resume {κ β : Type} [Inhabited β] (env : Env κ β)
    (buckets : List (Bucket κ)) (chunkSize : Int) (r : RangeInfo β)
    (bk bk2 : Bucket κ) (hbk : buckets[r.BucketID]? = some bk)
    (hbk2 : buckets[r.BucketID + 1]? = some bk2)
    (nu lv : β) (hdec1 : env.decode bk.UpperBound = Except.ok nu)
    (cnt : Int)
    (hrc : env.rowCount ⟨some r.boundsUpper, some nu⟩ = Except.ok cnt)
    (rs : List (ChunkRange β))
    (hsp : env.split ⟨some r.boundsUpper, some nu⟩
        ((cnt + chunkSize.tdiv 2).tdiv chunkSize) = Except.ok rs)
    (hdec2 : env.decode bk2.LowerBound = Except.ok lv) :
    produceChunks env buckets chunkSize (some r) =
      ((if 0 < cnt then
          [Emit.split ⟨some r.boundsUpper, some nu⟩ cnt
            ((cnt + chunkSize.tdiv 2).tdiv chunkSize) (InitChunks rs 0 r.BucketID).1]
        else []) ++
        (produceLoop env chunkSize (chunkSize.tdiv 2) buckets.length
          (buckets.drop (r.BucketID + 1)) (r.BucketID + 1) bk.Count (some lv)
          (if 0 < cnt then (InitChunks rs 0 r.BucketID).2 else 0)).1,
       (produceLoop env chunkSize (chunkSize.tdiv 2) buckets.length
          (buckets.drop (r.BucketID + 1)) (r.BucketID + 1) bk.Count (some lv)
          (if 0 < cnt then (InitChunks rs 0 r.BucketID).2 else 0)).2) := by
  have hcr : (NewChunkRange.Update r.boundsUpper (default : β) true false).Update
      default nu false true = (⟨some r.boundsUpper, some nu⟩ : ChunkRange β) := by
    simp [NewChunkRange, ChunkRange.Update]
  unfold produceChunks
  dsimp only
  rw [hbk]
  dsimp only
  rw [hdec1]
  dsimp only
  rw [hcr, hrc]
  dsimp only
  by_cases hcnt : 0 < cnt
  · rw [if_pos hcnt, hsp]
    dsimp only
    rw [hbk2]
    dsimp only
    rw [hdec2, if_pos hcnt, if_pos hcnt]
  · rw [if_neg hcnt]
    dsimp only
    rw [hbk2]
    dsimp only
    rw [hdec2, if_neg hcnt, if_neg hcnt]

/-- Witness for C8: resuming `buckets3` at checkpoint bucket 1 (saved bound 15) with
live count 120 and chunk size 100: one first batch with sub-chunk count 1 tagged
bucket 1, then the loop from bucket 2 with baseline 250 seeded at lower bound 20. -/
theorem C8_resume_witness :
    produceChunks envRC buckets3 100 (some ⟨7, 1, 15⟩) =
      ((if 0 < (120 : Int) then
          [Emit.split ⟨some 15, some 20⟩ 120 (((120 : Int) + (100 : Int).tdiv 2).tdiv 100)
            (InitChunks [⟨some 15, some 20⟩] 0 1).1]
        else []) ++
        (produceLoop envRC 100 ((100 : Int).tdiv 2) buckets3.length
          (buckets3.drop (1 + 1)) (1 + 1) 250 (some 20)
          (if 0 < (120 : Int) then (InitChunks [⟨some 15, some 20⟩] 0 1).2 else 0)).1,
       (produceLoop envRC 100 ((100 : Int).tdiv 2) buckets3.length
          (buckets3.drop (1 + 1)) (1 + 1) 250 (some 20)
          (if 0 < (120 : Int) then (InitChunks [⟨some 15, some 20⟩] 0 1).2 else 0)).2) :=
  C8_resume envRC buckets3 100 ⟨7, 1, 15⟩ ⟨250, 10, 20⟩ ⟨400, 20, 30⟩ rfl rfl 20 20 rfl
    120 rfl [⟨some 15, some 20⟩] rfl rfl

/-- The normal production loop itself never panics: its only outcomes are a clean
sentinel or an error sent on the error channel (all its slice indexing is guarded by
the loop condition). -/
theorem produceLoop_no_panic {κ β : Type} [Inhabited β] (env : Env κ β)
    (c half : Int) (t : Nat) :
    ∀ (bs : List (Bucket κ)) (i : Nat) (latest : Int) (lows : Option β) (cid : Int),
      (produceLoop env c half t bs i latest lows cid).2 ≠ Outcome.panicked := by
  intro bs
  induction bs with
  | nil =>
    intro i latest lows cid
    cases lows <;> simp [produceLoop]
  | cons bk rest ih =>
    intro i latest lows cid
    simp only [produceLoop]
    split
    · exact ih _ _ _ _
    · cases hdec : env.decode bk.UpperBound with
      | error e => simp
      | ok uv =>
        dsimp only
        cases hsp : env.split
            (match lows with
             | some lv => NewChunkRange.Update lv uv true true
             | none => NewChunkRange.Update default uv false true)
            ((bk.Count - latest + half).tdiv c) with
        | error e => simp
        | ok rs => simpa using ih _ _ _ _

/-- C10: the resume path indexes `buckets[BucketID]` (line 169) and
`buckets[BucketID + 1]` (line 194) without bounds checks.  When every external call
succeeds, production cannot panic whenever `BucketID + 1 < len(buckets)` (both
lookups hit the in-range branch, and the loop itself never panics); and for a
checkpoint whose bucket ID names the last bucket, the `BucketID + 1` lookup falls
outside the list and production panics. -/
theorem C10_resume_bounds {κ β : Type} [Inhabited β] (env : Env κ β)
    (buckets : List (Bucket κ)) (chunkSize : Int) (r : RangeInfo β)
    (hdec : ∀ x, ∃ v, env.decode x = Except.ok v)
    (hrc : ∀ q, ∃ n, env.rowCount q = Except.ok n)
    (hsp : ∀ q n, ∃ rs, env.split q n = Except.ok rs) :
    (r.BucketID + 1 < buckets.length →
      (produceChunks env buckets chunkSize (some r)).2 ≠ Outcome.panicked) ∧
    (r.BucketID + 1 = buckets.length →
      buckets[r.BucketID + 1]? = none ∧
      (produceChunks env buckets chunkSize (some r)).2 = Outcome.panicked) := by
  constructor
  · intro hlt
    have hb : r.BucketID < buckets.length := Nat.lt_of_succ_lt hlt
    have hbk : buckets[r.BucketID]? = some buckets[r.BucketID] :=
      List.getElem?_eq_getElem hb
    have hbk2 : buckets[r.BucketID + 1]? = some buckets[r.BucketID + 1] :=
      List.getElem?_eq_getElem hlt
    obtain ⟨nu, h1⟩ := hdec (buckets[r.BucketID]).UpperBound
    obtain ⟨cnt, h2⟩ := hrc ⟨some r.boundsUpper, some nu⟩
    obtain ⟨rs, h3⟩ := hsp ⟨some r.boundsUpper, some nu⟩
      ((cnt + chunkSize.tdiv 2).tdiv chunkSize)
    obtain ⟨lv, h4⟩ := hdec (buckets[r.BucketID + 1]).LowerBound
    rw [C8_resume env buckets chunkSize r _ _ hbk hbk2 nu lv h1 cnt h2 rs h3 h4]
    exact produceLoop_no_panic env chunkSize (chunkSize.tdiv 2) buckets.length _ _ _ _ _
  · intro heq
    have hb : r.BucketID < buckets.length := by omega
    have hbk : buckets[r.BucketID]? = some buckets[r.BucketID] :=
      List.getElem?_eq_getElem hb
    have hbk2 : buckets[r.BucketID + 1]? = none := by
      rw [List.getElem?_eq_none_iff]
      omega
    refine ⟨hbk2, ?_⟩
    obtain ⟨nu, h1⟩ := hdec (buckets[r.BucketID]).UpperBound
    obtain ⟨cnt, h2⟩ := hrc ⟨some r.boundsUpper, some nu⟩
    obtain ⟨rs, h3⟩ := hsp ⟨some r.boundsUpper, some nu⟩
      ((cnt + chunkSize.tdiv 2).tdiv chunkSize)
    have hcr : (NewChunkRange.Update r.boundsUpper (default : β) true false).Update
        default nu false true = (⟨some r.boundsUpper, some nu⟩ : ChunkRange β) := by
      simp [NewChunkRange, ChunkRange.Update]
    unfold produceChunks
    dsimp only
    rw [hbk]
    dsimp only
    rw [h1]
    dsimp only
    rw [hcr, h2]
    dsimp only
    by_cases hcnt : 0 < cnt
    · rw [if_pos hcnt, h3]
      dsimp only
      rw [hbk2]
    · rw [if_neg hcnt]
      dsimp only
      rw [hbk2]

/-- Witness for C10: on `buckets3` (3 buckets) with all-successful external calls, a
checkpoint at bucket 0 cannot make production panic, while a checkpoint at the last
bucket (ID 2) panics because `buckets[3]` is out of range. -/
theorem C10_resume_bounds_witness :
    ((produceChunks envRC buckets3 100 (some ⟨7, 0, 15⟩)).2 ≠ Outcome.panicked) ∧
    (buckets3[2 + 1]? = none ∧
      (produceChunks envRC buckets3 100 (some ⟨7, 2, 15⟩)).2 = Outcome.panicked) :=
  ⟨(C10_resume_bounds envRC buckets3 100 ⟨7, 0, 15⟩ (fun x => ⟨x, rfl⟩)
      (fun _ => ⟨120, rfl⟩) (fun q n => ⟨_, rfl⟩)).1 (by decide),
   (C10_resume_bounds envRC buckets3 100 ⟨7, 2, 15⟩ (fun x => ⟨x, rfl⟩)
      (fun _ => ⟨120, rfl⟩) (fun q n => ⟨_, rfl⟩)).2 (by decide)⟩

/-- Every loop batch's recorded sub-chunk count is `(delta + halfChunkSize) / chunkSize`
in Go (truncating) division. -/
theorem produceLoop_chunkCnt {κ β : Type} [Inhabited β] (env : Env κ β)
    (c half : Int) (t : Nat) :
    ∀ (bs : List (Bucket κ)) (i : Nat) (latest : Int) (lows : Option β) (cid : Int)
      (e : Emit β), e ∈ (produceLoop env c half t bs i latest lows cid).1 →
      ∀ m d n chs, e = Emit.split m d n chs → n = (d + half).tdiv c := by
  intro bs
  induction bs with
  | nil =>
    intro i latest lows cid e he m d n chs heq
    cases lows with
    | none => simp [produceLoop] at he
    | some lv =>
      simp only [produceLoop, List.mem_singleton] at he
      subst he
      cases heq
  | cons bk rest ih =>
    intro i latest lows cid e he m d n chs heq
    simp only [produceLoop] at he
    revert he
    split
    · exact fun he => ih _ _ _ _ e he m d n chs heq
    · cases hdec : env.decode bk.UpperBound with
      | error e0 => intro he; simp at he
      | ok uv =>
        dsimp only
        cases hsp : env.split
            (match lows with
             | some lv => NewChunkRange.Update lv uv true true
             | none => NewChunkRange.Update default uv false true)
            ((bk.Count - latest + half).tdiv c) with
        | error e0 => intro he; simp at he
        | ok rs =>
          dsimp only
          intro he
          rcases List.mem_cons.mp he with rfl | hmem
          · cases heq
            rfl
          · exact ih _ _ _ _ e hmem m d n chs heq

/-- Every batch of a full `produceChunks` run — loop batches and the
checkpoint-resume first batch alike — records the sub-chunk count
`(delta + c/2) / c` (Go division), `delta` being the merged range's row delta (the
live count on resume). -/
theorem produceChunks_chunkCnt {κ β : Type} [Inhabited β] (env : Env κ β)
    (buckets : List (Bucket κ)) (c : Int) (sr : Option (RangeInfo β))
    (e : Emit β) (he : e ∈ (produceChunks env buckets c sr).1)
    (m : ChunkRange β) (d n : Int) (chs : List (Chunk β))
    (heq : e = Emit.split m d n chs) : n = (d + c.tdiv 2).tdiv c := by
  cases sr with
  | none =>
    exact produceLoop_chunkCnt env c (c.tdiv 2) buckets.length buckets 0 0 none 0 e
      he m d n chs heq
  | some r =>
    revert he
    unfold produceChunks
    dsimp only
    cases hbk : buckets[r.BucketID]? with
    | none => intro he; simp at he
    | some bk =>
      dsimp only
      cases hdec : env.decode bk.UpperBound with
      | error e0 => intro he; simp at he
      | ok nu =>
        dsimp only
        cases hrc : env.rowCount
            ((NewChunkRange.Update r.boundsUpper default true false).Update
              default nu false true) with
        | error e0 => intro he; simp at he
        | ok cnt =>
          dsimp only
          by_cases hcnt : 0 < cnt
          · rw [if_pos hcnt]
            cases hsp : env.split
                ((NewChunkRange.Update r.boundsUpper default true false).Update
                  default nu false true) ((cnt + c.tdiv 2).tdiv c) with
            | error e0 => intro he; simp at he
            | ok rs =>
              dsimp only
              cases hbk2 : buckets[r.BucketID + 1]? with
              | none =>
                intro he
                rcases List.mem_singleton.mp he with rfl
                cases heq
                rfl
              | some bk2 =>
                dsimp only
                cases hdec2 : env.decode bk2.LowerBound with
                | error e0 =>
                  intro he
                  rcases List.mem_singleton.mp he with rfl
                  cases heq
                  rfl
                | ok lv =>
                  dsimp only
                  intro he
                  rcases List.mem_append.mp he with hfst | hmem
                  · rcases List.mem_singleton.mp hfst with rfl
                    cases heq
                    rfl
                  · exact produceLoop_chunkCnt env c (c.tdiv 2) buckets.length _ _ _
                      _ _ e hmem m d n chs heq
          · rw [if_neg hcnt]
            dsimp only
            cases hbk2 : buckets[r.BucketID + 1]? with
            | none => intro he; simp at he
            | some bk2 =>
              dsimp only
              cases hdec2 : env.decode bk2.LowerBound with
              | error e0 => intro he; simp at he
              | ok lv =>
                dsimp only
                intro he
                rcases List.mem_append.mp he with hfst | hmem
                · simp at hfst
                · exact produceLoop_chunkCnt env c (c.tdiv 2) buckets.length _ _ _
                    _ _ e hmem m d n chs heq

/-- The half-up rule `(d + c/2) / c` at the claim's boundary cases, for `0 ≤ d` and
`0 < c`. -/
theorem halfUp_boundary (c d : Int) (hc : 0 < c) (hd : 0 ≤ d) :
    (d = 0 → (d + c.tdiv 2).tdiv c = 0) ∧
    (c < 2 * d → 2 * d < 3 * c → (d + c.tdiv 2).tdiv c = 1) ∧
    (3 * c < 2 * d → 2 * d < 5 * c → (d + c.tdiv 2).tdiv c = 2) := by
  have h2 : c.tdiv 2 = c / 2 := Int.tdiv_eq_ediv (le_of_lt hc) (by norm_num)
  have hh : 0 ≤ c / 2 ∧ 2 * (c / 2) ≤ c ∧ c ≤ 2 * (c / 2) + 1 := by omega
  have htd : (d + c.tdiv 2).tdiv c = (d + c / 2) / c := by
    rw [h2]
    exact Int.tdiv_eq_ediv (by omega) (le_of_lt hc)
  refine ⟨?_, ?_, ?_⟩
  · intro h0
    subst h0
    rw [htd]
    exact Int.ediv_eq_zero_of_lt (by omega) (by omega)
  · intro hlo hhi
    rw [htd]
    have h1 : 1 ≤ (d + c / 2) / c := (Int.le_ediv_iff_mul_le hc).2 (by omega)
    have h2' : (d + c / 2) / c < 2 := (Int.ediv_lt_iff_lt_mul hc).2 (by omega)
    omega
  · intro hlo hhi
    rw [htd]
    have h1 : 2 ≤ (d + c / 2) / c := (Int.le_ediv_iff_mul_le hc).2 (by omega)
    have h2' : (d + c / 2) / c < 3 := (Int.ediv_lt_iff_lt_mul hc).2 (by omega)
    omega

/-- C3: for every batch of `produceChunks` (normal loop and checkpoint-resume first
batch), with non-negative row delta `d` and positive chunk size `c`, the sub-chunk
count handed to the Sub-Range Splitter equals `(d + c/2) / c` under Go integer
division (`c/2` itself an integer division); in particular `d = 0` yields 0, deltas
in `(0.5c, 1.5c)` yield 1, and deltas in `(1.5c, 2.5c)` yield 2. -/
theorem C3_half_up_rounding {κ β : Type} [Inhabited β] (env : Env κ β)
    (buckets : List (Bucket κ)) (c : Int) (sr : Option (RangeInfo β)) (hc : 0 < c)
    (e : Emit β) (he : e ∈ (produceChunks env buckets c sr).1)
    (m : ChunkRange β) (d n : Int) (chs : List (Chunk β))
    (heq : e = Emit.split m d n chs) (hd : 0 ≤ d) :
    n = (d + c.tdiv 2).tdiv c ∧
    (d = 0 → n = 0) ∧
    (c < 2 * d → 2 * d < 3 * c → n = 1) ∧
    (3 * c < 2 * d → 2 * d < 5 * c → n = 2) := by
  have hn := produceChunks_chunkCnt env buckets c sr e he m d n chs heq
  have hb := halfUp_boundary c d hc hd
  subst hn
  exact ⟨rfl, hb.1, hb.2.1, hb.2.2⟩

/-- Witness for C3: the first batch of the spec's scenario (delta 100, chunk size
100) has sub-chunk count 1 = (100 + 50)/100, matching the boundary facts. -/
theorem C3_half_up_rounding_witness :
    (1 : Int) = ((100 : Int) + (100 : Int).tdiv 2).tdiv 100 ∧
    ((100 : Int) = 0 → (1 : Int) = 0) ∧
    ((100 : Int) < 2 * 100 → (2 : Int) * 100 < 3 * 100 → (1 : Int) = 1) ∧
    (3 * (100 : Int) < 2 * 100 → (2 : Int) * 100 < 5 * 100 → (1 : Int) = 2) :=
  C3_half_up_rounding envInt buckets3 100 none (by decide)
    (Emit.split ⟨none, some 10⟩ 100 1 [⟨⟨none, some 10⟩, 0, 0⟩]) (by decide)
    ⟨none, some 10⟩ 100 1 [⟨⟨none, some 10⟩, 0, 0⟩] rfl (by decide)

/-- After the loop over the remaining buckets finishes cleanly, the trace consists
of loop batches only, followed by exactly one trailing single-chunk batch — bounded
below by the pending lower bound (`pendingLow`), unbounded above, tagged
`totalBuckets` — when a pending lower bound exists, and by nothing when it does
not. -/
theorem produceLoop_trailing {κ β : Type} [Inhabited β] (env : Env κ β)
    (c half : Int) (t : Nat)
    (hdec : ∀ x, ∃ v, env.decode x = Except.ok v)
    (hsp : ∀ q n, ∃ rs, env.split q n = Except.ok rs) :
    ∀ (bs : List (Bucket κ)) (i : Nat) (latest : Int) (lows : Option β) (cid : Int),
      ∃ tr₁ cid₁, (∀ e ∈ tr₁, e.isLast = false) ∧
        produceLoop env c half t bs i latest lows cid =
          withTrailing lows tr₁ cid₁ t := by
  intro bs
  induction bs with
  | nil =>
    intro i latest lows cid
    refine ⟨[], cid, by simp, ?_⟩
    cases lows with
    | none => simp [produceLoop, pendingLow, withTrailing]
    | some lv =>
      simp [produceLoop, pendingLow, withTrailing, NewChunkRange, ChunkRange.Update]
  | cons bk rest ih =>
    intro i latest lows cid
    by_cases hcnt : bk.Count - latest < c
    · obtain ⟨tr₁, cid₁, hnl, heq⟩ := ih (i + 1) latest lows cid
      refine ⟨tr₁, cid₁, hnl, ?_⟩
      rw [← heq]
      simp only [produceLoop, if_pos hcnt]
    · obtain ⟨uv, hdecv⟩ := hdec bk.UpperBound
      cases lows with
      | none =>
        obtain ⟨rs, hspv⟩ := hsp (NewChunkRange.Update default uv false true)
          ((bk.Count - latest + half).tdiv c)
        obtain ⟨tr₁, cid₁, hnl, heq⟩ := ih (i + 1) bk.Count (some uv)
          (InitChunks rs cid i).2
        refine ⟨Emit.split (NewChunkRange.Update default uv false true)
          (bk.Count - latest) ((bk.Count - latest + half).tdiv c)
          (InitChunks rs cid i).1 :: tr₁, cid₁, ?_, ?_⟩
        · intro e he
          rcases List.mem_cons.mp he with rfl | hmem
          · rfl
          · exact hnl e hmem
        · have hpl : pendingLow none (Emit.split
              (NewChunkRange.Update default uv false true)
              (bk.Count - latest) ((bk.Count - latest + half).tdiv c)
              (InitChunks rs cid i).1 :: tr₁) = pendingLow (some uv) tr₁ := by
            simp [pendingLow, NewChunkRange, ChunkRange.Update]
          simp only [withTrailing]
          rw [hpl]
          simp only [produceLoop, if_neg hcnt, hdecv]
          rw [hspv]
          dsimp only
          rw [heq]
          simp only [withTrailing]
          cases hp : pendingLow (some uv) tr₁ with
          | none => rfl
          | some lv => simp
      | some lv0 =>
        obtain ⟨rs, hspv⟩ := hsp (NewChunkRange.Update lv0 uv true true)
          ((bk.Count - latest + half).tdiv c)
        obtain ⟨tr₁, cid₁, hnl, heq⟩ := ih (i + 1) bk.Count (some uv)
          (InitChunks rs cid i).2
        refine ⟨Emit.split (NewChunkRange.Update lv0 uv true true)
          (bk.Count - latest) ((bk.Count - latest + half).tdiv c)
          (InitChunks rs cid i).1 :: tr₁, cid₁, ?_, ?_⟩
        · intro e he
          rcases List.mem_cons.mp he with rfl | hmem
          · rfl
          · exact hnl e hmem
        · have hpl : pendingLow (some lv0) (Emit.split
              (NewChunkRange.Update lv0 uv true true)
              (bk.Count - latest) ((bk.Count - latest + half).tdiv c)
              (InitChunks rs cid i).1 :: tr₁) = pendingLow (some uv) tr₁ := by
            simp [pendingLow, NewChunkRange, ChunkRange.Update]
          simp only [withTrailing]
          rw [hpl]
          simp only [produceLoop, if_neg hcnt, hdecv]
          rw [hspv]
          dsimp only
          rw [heq]
          simp only [withTrailing]
          cases hp : pendingLow (some uv) tr₁ with
          | none => rfl
          | some lv => simp

/-- C9: after the loop over all buckets finishes (hypotheses: decoding and the
splitter always succeed, so the run is clean), `produceChunks` without a checkpoint
emits loop batches only, followed by exactly one trailing batch — a single range
bounded below by the last emitted upper bound (`pendingLow` with empty seed),
unbounded above, tagged with bucket ID `len(buckets)` — exactly when a pending lower
bound exists; with no pending lower bound (no range ever emitted) no trailing range
is produced. -/
theorem C9_trailing_chunk {κ β : Type} [Inhabited β] (env : Env κ β)
    (bs : List (Bucket κ)) (c : Int)
    (hdec : ∀ x, ∃ v, env.decode x = Except.ok v)
    (hsp : ∀ q n, ∃ rs, env.split q n = Except.ok rs) :
    ∃ tr₁ cid₁, (∀ e ∈ tr₁, e.isLast = false) ∧
      produceChunks env bs c none = withTrailing none tr₁ cid₁ bs.length :=
  produceLoop_trailing env c (c.tdiv 2) bs.length hdec hsp bs 0 0 none 0

/-- Witness for C9 on the spec's scenario. -/
theorem C9_trailing_chunk_witness :
    ∃ tr₁ cid₁, (∀ e ∈ tr₁, e.isLast = false) ∧
      produceChunks envInt buckets3 100 none = withTrailing none tr₁ cid₁ buckets3.length :=
  C9_trailing_chunk envInt buckets3 100 (fun x => ⟨x, rfl⟩) (fun _ _ => ⟨_, rfl⟩)

/-- `InitChunks` only stamps metadata: the chunks' ranges are the splitter's. -/
theorem InitChunks_map_range {β : Type} (rs : List (ChunkRange β)) (cid : Int)
    (b : Nat) : (InitChunks rs cid b).1.map Chunk.range = rs := by
  unfold InitChunks
  rw [List.map_map]
  have h : (Chunk.range ∘ fun p : Nat × ChunkRange β =>
      (⟨p.2, cid + (p.1 : Int), b⟩ : Chunk β)) = Prod.snd := by
    funext p
    rfl
  rw [h, List.enum_map_snd]

/-- Chunk-level key union is the range-level key union. -/
theorem chunksKeys_ranges {α : Type} [LinearOrder α] (l : List (Chunk α)) :
    chunksKeys l = rangesKeys (l.map Chunk.range) := by
  ext k
  constructor
  · rintro ⟨ch, hch, hk⟩
    exact ⟨ch.range, List.mem_map_of_mem _ hch, hk⟩
  · rintro ⟨q, hq, hk⟩
    rcases List.mem_map.mp hq with ⟨ch, hch, rfl⟩
    exact ⟨ch, hch, hk⟩

/-- Key unions distribute over batch concatenation. -/
theorem chunksKeys_append {α : Type} [LinearOrder α] (a b : List (Chunk α)) :
    chunksKeys (a ++ b) = chunksKeys a ∪ chunksKeys b := by
  ext k
  constructor
  · rintro ⟨ch, hch, hk⟩
    rcases List.mem_append.mp hch with h | h
    · exact Or.inl ⟨ch, h, hk⟩
    · exact Or.inr ⟨ch, h, hk⟩
  · rintro (⟨ch, hch, hk⟩ | ⟨ch, hch, hk⟩)
    · exact ⟨ch, List.mem_append_left _ hch, hk⟩
    · exact ⟨ch, List.mem_append_right _ hch, hk⟩

/-- A key of a member chunk is a key of the list. -/
theorem mem_chunksKeys {α : Type} [LinearOrder α] {l : List (Chunk α)}
    {ch : Chunk α} (hch : ch ∈ l) {k : α} (hk : k ∈ ch.range.keySet) :
    k ∈ chunksKeys l := ⟨ch, hch, hk⟩

/-- A range with no upper bound denotes exactly the keys above its lower bound. -/
theorem keySet_no_upper {α : Type} [LinearOrder α] (lows : Option α) :
    (⟨lows, none⟩ : ChunkRange α).keySet = lowSet lows := by
  ext k
  simp [ChunkRange.keySet, lowSet]

/-- Splitting off the keys up to `uv`: a range `(lows, uv]` together with the keys
above `uv` covers exactly the keys above `lows`, provided `lows ≤ uv`. -/
theorem keySet_union_step {α : Type} [LinearOrder α] (lows : Option α) (uv : α)
    (hle : ∀ l, lows = some l → l ≤ uv) :
    (⟨lows, some uv⟩ : ChunkRange α).keySet ∪ lowSet (some uv) = lowSet lows := by
  ext k
  constructor
  · rintro (⟨hL, hU⟩ | huv)
    · exact hL
    · intro l hl
      exact lt_of_le_of_lt (hle l hl) (huv uv rfl)
  · intro hL
    rcases le_or_lt k uv with hk | hk
    · exact Or.inl ⟨hL, fun u hu => by cases hu; exact hk⟩
    · exact Or.inr (fun l hl => by cases hl; exact hk)

/-- A single pass-through range is an ordered tiling of itself. -/
theorem orderedTiling_single {α : Type} [LinearOrder α] (q : ChunkRange α) :
    OrderedTiling [q] q := by
  constructor
  · ext k
    constructor
    · rintro ⟨q0, hq0, hk⟩
      rcases List.mem_singleton.mp hq0 with rfl
      exact hk
    · intro hk
      exact ⟨q, List.mem_singleton.mpr rfl, hk⟩
  · simp

/-- The set-level content of one emission step: a batch tiling the merged range
`(lows, uv]` followed by chunks tiling the keys above `uv` tiles the keys above
`lows`, pairwise in ascending order. -/
theorem emit_step_sets {α : Type} [LinearOrder α] (lows : Option α) (uv : α)
    (hle : ∀ l, lows = some l → l ≤ uv)
    (rs : List (ChunkRange α)) (htile : OrderedTiling rs ⟨lows, some uv⟩)
    (batch : List (Chunk α)) (hbatch : batch.map Chunk.range = rs)
    (restCh : List (Chunk α)) (hrest : chunksKeys restCh = lowSet (some uv))
    (hrestPW : restCh.Pairwise (fun a b => Below a.range.keySet b.range.keySet)) :
    chunksKeys (batch ++ restCh) = lowSet lows ∧
    (batch ++ restCh).Pairwise (fun a b => Below a.range.keySet b.range.keySet) := by
  have hunion : chunksKeys batch = (⟨lows, some uv⟩ : ChunkRange α).keySet := by
    rw [chunksKeys_ranges, hbatch, htile.1]
  constructor
  · rw [chunksKeys_append, hunion, hrest]
    exact keySet_union_step lows uv hle
  · rw [List.pairwise_append]
    refine ⟨?_, hrestPW, ?_⟩
    · have h2 := htile.2
      rw [← hbatch] at h2
      exact (List.pairwise_map
        (R := fun a b : ChunkRange α => Below a.keySet b.keySet)).mp h2
    · intro a ha b hb x hx y hy
      have hxm : x ∈ chunksKeys batch := mem_chunksKeys ha hx
      have hym : y ∈ chunksKeys restCh := mem_chunksKeys hb hy
      rw [hunion] at hxm
      rw [hrest] at hym
      exact lt_of_le_of_lt (hxm.2 uv rfl) (hym uv rfl)

/-- Invariant of the production loop: over buckets whose decoded upper bounds are
non-decreasing and lie above the seeded lower bound, a clean run (identity decoding,
always-succeeding ordered-tiling splitter) emits chunks whose key sets tile exactly
the keys above the seeded lower bound, pairwise in ascending order — except that
with no seed and every remaining delta below the chunk size nothing at all is
emitted. -/
theorem produceLoop_tiling {α : Type} [LinearOrder α] [Inhabited α] (env : Env α α)
    (c half : Int) (t : Nat)
    (hdec : ∀ x, env.decode x = Except.ok x)
    (hsp : ∀ q n, ∃ rs, env.split q n = Except.ok rs ∧ OrderedTiling rs q) :
    ∀ (bs : List (Bucket α)) (i : Nat) (latest : Int) (lows : Option α) (cid : Int),
      (bs.map Bucket.UpperBound).Pairwise (· ≤ ·) →
      (∀ l, lows = some l → ∀ b ∈ bs, l ≤ b.UpperBound) →
      (produceLoop env c half t bs i latest lows cid).2 = Outcome.done ∧
      ((lows = none ∧ ∀ b ∈ bs, b.Count - latest < c) →
        (produceLoop env c half t bs i latest lows cid).1 = []) ∧
      ((lows ≠ none ∨ ∃ b ∈ bs, c ≤ b.Count - latest) →
        chunksKeys (allChunks (produceLoop env c half t bs i latest lows cid).1) =
          lowSet lows ∧
        (allChunks (produceLoop env c half t bs i latest lows cid).1).Pairwise
          (fun a b => Below a.range.keySet b.range.keySet)) := by
  intro bs
  induction bs with
  | nil =>
    intro i latest lows cid hmono hseed
    cases lows with
    | none =>
      refine ⟨rfl, fun _ => rfl, ?_⟩
      rintro (h | ⟨b, hb, _⟩)
      · exact absurd rfl h
      · simp at hb
    | some lv =>
      refine ⟨rfl, ?_, ?_⟩
      · rintro ⟨h, _⟩
        exact Option.noConfusion h
      · intro _
        have hch : allChunks (produceLoop env c half t [] i latest (some lv) cid).1 =
            [⟨⟨some lv, none⟩, cid, t⟩] := by
          simp [produceLoop, allChunks, Emit.chunksOf, NewChunkRange, ChunkRange.Update]
        rw [hch]
        constructor
        · have h1 : chunksKeys [(⟨⟨some lv, none⟩, cid, t⟩ : Chunk α)] =
              (⟨some lv, none⟩ : ChunkRange α).keySet := by
            ext k
            constructor
            · rintro ⟨ch, hch0, hk⟩
              rcases List.mem_singleton.mp hch0 with rfl
              exact hk
            · intro hk
              exact ⟨_, List.mem_singleton.mpr rfl, hk⟩
          rw [h1, keySet_no_upper]
        · simp
  | cons bk rest ih =>
    intro i latest lows cid hmono hseed
    have hmono' : (rest.map Bucket.UpperBound).Pairwise (· ≤ ·) :=
      (List.pairwise_cons.mp (by simpa using hmono)).2
    have hhead : ∀ b ∈ rest, bk.UpperBound ≤ b.UpperBound := by
      intro b hb
      exact (List.pairwise_cons.mp (by simpa using hmono)).1 _
        (List.mem_map_of_mem _ hb)
    by_cases hcnt : bk.Count - latest < c
    · have hseed' : ∀ l, lows = some l → ∀ b ∈ rest, l ≤ b.UpperBound :=
        fun l hl b hb => hseed l hl b (List.mem_cons_of_mem _ hb)
      have H := ih (i + 1) latest lows cid hmono' hseed'
      have hred : produceLoop env c half t (bk :: rest) i latest lows cid =
          produceLoop env c half t rest (i + 1) latest lows cid := by
        simp only [produceLoop, if_pos hcnt]
      rw [hred]
      refine ⟨H.1, ?_, ?_⟩
      · rintro ⟨h1, h2⟩
        exact H.2.1 ⟨h1, fun b hb => h2 b (List.mem_cons_of_mem _ hb)⟩
      · rintro (h | ⟨b, hb, hcb⟩)
        · exact H.2.2 (Or.inl h)
        · rcases List.mem_cons.mp hb with rfl | hb2
          · exact absurd hcb (by omega)
          · exact H.2.2 (Or.inr ⟨b, hb2, hcb⟩)
    · cases lows with
      | none =>
        obtain ⟨rs, hspv, htile⟩ :=
          hsp (NewChunkRange.Update default bk.UpperBound false true)
            ((bk.Count - latest + half).tdiv c)
        have H := ih (i + 1) bk.Count (some bk.UpperBound) (InitChunks rs cid i).2
          hmono' (by
            intro l hl b hb
            cases hl
            exact hhead b hb)
        have hred : produceLoop env c half t (bk :: rest) i latest none cid =
            (Emit.split (NewChunkRange.Update default bk.UpperBound false true)
                (bk.Count - latest) ((bk.Count - latest + half).tdiv c)
                (InitChunks rs cid i).1 ::
              (produceLoop env c half t rest (i + 1) bk.Count (some bk.UpperBound)
                (InitChunks rs cid i).2).1,
              (produceLoop env c half t rest (i + 1) bk.Count (some bk.UpperBound)
                (InitChunks rs cid i).2).2) := by
          simp only [produceLoop, if_neg hcnt, hdec bk.UpperBound]
          rw [hspv]
        rw [hred]
        have hrec := H.2.2 (Or.inl (by simp))
        refine ⟨H.1, ?_, ?_⟩
        · rintro ⟨_, h2⟩
          exact absurd (h2 bk (List.mem_cons_self _ _)) (by omega)
        · intro _
          have hall : allChunks
              (Emit.split (NewChunkRange.Update default bk.UpperBound false true)
                (bk.Count - latest) ((bk.Count - latest + half).tdiv c)
                (InitChunks rs cid i).1 ::
                (produceLoop env c half t rest (i + 1) bk.Count (some bk.UpperBound)
                  (InitChunks rs cid i).2).1) =
              (InitChunks rs cid i).1 ++
                allChunks (produceLoop env c half t rest (i + 1) bk.Count
                  (some bk.UpperBound) (InitChunks rs cid i).2).1 := by
            simp [allChunks, Emit.chunksOf]
          rw [hall]
          have htile' : OrderedTiling rs ⟨none, some bk.UpperBound⟩ := by
            have he : NewChunkRange.Update default bk.UpperBound false true =
                (⟨none, some bk.UpperBound⟩ : ChunkRange α) := by
              simp [NewChunkRange, ChunkRange.Update]
            rwa [he] at htile
          exact emit_step_sets none bk.UpperBound (fun l hl => Option.noConfusion hl)
            rs htile' _ (InitChunks_map_range rs cid i) _ hrec.1 hrec.2
      | some lv0 =>
        obtain ⟨rs, hspv, htile⟩ :=
          hsp (NewChunkRange.Update lv0 bk.UpperBound true true)
            ((bk.Count - latest + half).tdiv c)
        have H := ih (i + 1) bk.Count (some bk.UpperBound) (InitChunks rs cid i).2
          hmono' (by
            intro l hl b hb
            cases hl
            exact hhead b hb)
        have hred : produceLoop env c half t (bk :: rest) i latest (some lv0) cid =
            (Emit.split (NewChunkRange.Update lv0 bk.UpperBound true true)
                (bk.Count - latest) ((bk.Count - latest + half).tdiv c)
                (InitChunks rs cid i).1 ::
              (produceLoop env c half t rest (i + 1) bk.Count (some bk.UpperBound)
                (InitChunks rs cid i).2).1,
              (produceLoop env c half t rest (i + 1) bk.Count (some bk.UpperBound)
                (InitChunks rs cid i).2).2) := by
          simp only [produceLoop, if_neg hcnt, hdec bk.UpperBound]
          rw [hspv]
        rw [hred]
        have hrec := H.2.2 (Or.inl (by simp))
        refine ⟨H.1, ?_, ?_⟩
        · rintro ⟨h1, _⟩
          exact Option.noConfusion h1
        · intro _
          have hall : allChunks
              (Emit.split (NewChunkRange.Update lv0 bk.UpperBound true true)
                (bk.Count - latest) ((bk.Count - latest + half).tdiv c)
                (InitChunks rs cid i).1 ::
                (produceLoop env c half t rest (i + 1) bk.Count (some bk.UpperBound)
                  (InitChunks rs cid i).2).1) =
              (InitChunks rs cid i).1 ++
                allChunks (produceLoop env c half t rest (i + 1) bk.Count
                  (some bk.UpperBound) (InitChunks rs cid i).2).1 := by
            simp [allChunks, Emit.chunksOf]
          rw [hall]
          have htile' : OrderedTiling rs ⟨some lv0, some bk.UpperBound⟩ := by
            have he : NewChunkRange.Update lv0 bk.UpperBound true true =
                (⟨some lv0, some bk.UpperBound⟩ : ChunkRange α) := by
              simp [NewChunkRange, ChunkRange.Update]
            rwa [he] at htile
          exact emit_step_sets (some lv0) bk.UpperBound
            (fun l hl => by
              cases hl
              exact hseed lv0 rfl bk (List.mem_cons_self _ _))
            rs htile' _ (InitChunks_map_range rs cid i) _ hrec.1 hrec.2

/-- C1 (amended): for every bucket list with non-decreasing decoded upper bounds and
every chunk size, if the Sub-Range Splitter always succeeds with an ordered tiling
of each merged range and at least one bucket's cumulative count reaches the chunk
size, then the chunks emitted by `produceChunks` without a checkpoint tile the whole
key space: their key sets union to everything and every earlier chunk lies strictly
below every later one (no gaps, no overlaps, ascending).  The reach-the-chunk-size
proviso is forced: when every cumulative count stays below the chunk size the loop
never emits, `lowerValues` stays empty, the trailing merge is skipped, and no chunk
at all is produced (see the counterexample). -/
theorem C1_tiling {α : Type} [LinearOrder α] [Inhabited α] (env : Env α α)
    (bs : List (Bucket α)) (c : Int)
    (hdec : ∀ x, env.decode x = Except.ok x)
    (hsp : ∀ q n, ∃ rs, env.split q n = Except.ok rs ∧ OrderedTiling rs q)
    (hmono : (bs.map Bucket.UpperBound).Pairwise (· ≤ ·))
    (hemit : ∃ b ∈ bs, c ≤ b.Count) :
    (produceChunks env bs c none).2 = Outcome.done ∧
    chunksKeys (allChunks (produceChunks env bs c none).1) = Set.univ ∧
    (allChunks (produceChunks env bs c none).1).Pairwise
      (fun a b => Below a.range.keySet b.range.keySet) := by
  have H := produceLoop_tiling env c (c.tdiv 2) bs.length hdec hsp bs 0 0 none 0
    hmono (fun l hl => Option.noConfusion hl)
  have h3 := H.2.2 (Or.inr (by
    obtain ⟨b, hb, hc⟩ := hemit
    exact ⟨b, hb, by omega⟩))
  have hlow : lowSet (none : Option α) = Set.univ := by
    ext k
    simp [lowSet]
  have hps : produceChunks env bs c none =
      produceLoop env c (c.tdiv 2) bs.length bs 0 0 none 0 := rfl
  rw [hps]
  exact ⟨H.1, hlow ▸ h3.1, h3.2⟩

/-- C1 is false as stated for bucket lists whose every cumulative-count delta stays
below the chunk size: with one bucket of count 1 and chunk size 10 (and the
pass-through splitter, a correct ordered tiling of every range), `produceChunks`
emits no chunk at all, so the union of the emitted key intervals is empty — not the
whole key space. -/
theorem C1_counterexample :
    produceChunks envId bucketsSmall 10 none = ([], Outcome.done) ∧
    chunksKeys (allChunks (produceChunks envId bucketsSmall 10 none).1) ≠
      (Set.univ : Set Int) := by
  refine ⟨rfl, ?_⟩
  intro h
  have h0 : (0 : Int) ∈
      chunksKeys (allChunks (produceChunks envId bucketsSmall 10 none).1) := by
    rw [h]
    trivial
  obtain ⟨ch, hch, -⟩ := h0
  have hnil : allChunks (produceChunks envId bucketsSmall 10 none).1 =
      ([] : List (Chunk Int)) := rfl
  rw [hnil] at hch
  simp at hch

/-- Witness for C1 (amended) at one bucket of count 5, chunk size 3, identity
decoding and pass-through splitter. -/
theorem C1_tiling_witness :
    (produceChunks envId bucketsW 3 none).2 = Outcome.done ∧
    chunksKeys (allChunks (produceChunks envId bucketsW 3 none).1) = Set.univ ∧
    (allChunks (produceChunks envId bucketsW 3 none).1).Pairwise
      (fun a b => Below a.range.keySet b.range.keySet) :=
  C1_tiling envId bucketsW 3 (fun _ => rfl)
    (fun q _ => ⟨[q], rfl, orderedTiling_single q⟩)
    (by simp [bucketsW])
    ⟨⟨5, 0, 7⟩, by simp [bucketsW], by decide⟩

end Splitter
